import Mathlib

/-!
Verification development for the QFD (Questa Fast Logging) API layer of
this repository (headers `qfd.h` and `qfd_expr.h`).

The repository ships the API as declarations plus contracts in comments;
the behavioral definitions below are modelled from the specification of
the reimplementation (object classifier, callback registry, expression
tree builder with alias detection, and the session-controller state
machine), and the theorems at the end of the file settle the spec claims
against this model.
-/

/-- Value types returned by qfd_getValType, from `qfd.h`:
None, Cancelled (object not available), Primary (loggable),
Secondary (value can be reconstructed), Literal (constant value). -/
inductive TQfdValType where
  | QFD_VAL_NONE
  | QFD_VAL_CANCELLED
  | QFD_VAL_PRIMARY
  | QFD_VAL_SECONDARY
  | QFD_VAL_LITERAL
  deriving DecidableEq, Repr

/-- Modelled from the spec: the language kind of a design object.  The
header distinguishes Verilog objects (at most one fast callback, some
object types unsupported) from VHDL objects (no such limitations). -/
inductive HdlKind where
  | verilog
  | vhdl
  deriving DecidableEq, Repr

/-- Opaque object handle (`typedef void* qfdHandle` in `qfd_expr.h`),
modelled as a foreign key into the engine-owned registry. -/
abbrev qfdHandle := Nat

/-- The twelve reconstruction-expression operation tags from
`qfd_expr.h` (enum TQfdSecMapExprOpType). -/
inductive TQfdSecMapExprOpType where
  | QFD_SECMAP_VAR
  | QFD_SECMAP_BITSEL
  | QFD_SECMAP_PARTSEL
  | QFD_SECMAP_CONCAT
  | QFD_SECMAP_REPLICATE
  | QFD_SECMAP_BITAND
  | QFD_SECMAP_BITOR
  | QFD_SECMAP_BITXOR
  | QFD_SECMAP_BITNEG
  | QFD_SECMAP_BITBUF
  | QFD_SECMAP_TERNARY
  | QFD_SECMAP_LITERAL
  deriving DecidableEq, Repr

mutual
/-- Reconstruction expression tree, from `qfd_expr.h`.  One constructor
per concrete struct variant: Var (TQfdSecMapVarExpr), BitSelect
(TQfdSecMapBitSelectExpr, bit-offset index), PartSelect
(TQfdSecMapPartSelectExpr, lsb/msb offsets), the two prefix operations
(TQfdSecMapPrefixExpr), the three infix operations
(TQfdSecMapInfixExpr), Replicate (TQfdSecMapReplicateExpr), Concat and
Ternary (TQfdSecMapExpr with an operand list), and Literal.
BitSelect and PartSelect take a handle, never a nested expression. -/
inductive TQfdSecMapBaseExpr where
  | var (handle : qfdHandle)
  | bitSelect (idx : Nat) (handle : qfdHandle)
  | partSelect (lsb msb : Nat) (handle : qfdHandle)
  | bitNeg (operand : TQfdSecMapBaseExpr)
  | bitBuf (operand : TQfdSecMapBaseExpr)
  | bitAnd (lhs rhs : TQfdSecMapBaseExpr)
  | bitOr (lhs rhs : TQfdSecMapBaseExpr)
  | bitXor (lhs rhs : TQfdSecMapBaseExpr)
  | replicate (num : Nat) (operand : TQfdSecMapBaseExpr)
  | concat (operands : ExprList)
  | ternary (cond thenOp elseOp : TQfdSecMapBaseExpr)
  | literal (value : Nat)
  deriving DecidableEq, Repr
/-- Ordered operand sequence of a Concat node (`operands` array of
TQfdSecMapExpr in `qfd_expr.h`). -/
inductive ExprList where
  | nil
  | cons (hd : TQfdSecMapBaseExpr) (tl : ExprList)
  deriving DecidableEq, Repr
end

def ExprList.length : ExprList → Nat
  | .nil => 0
  | .cons _ tl => 1 + tl.length

/-- The `opType` discriminant tag carried by every expression node
(QFD_MAPEXPR_BASE field in `qfd_expr.h`). -/
def TQfdSecMapBaseExpr.opType : TQfdSecMapBaseExpr → TQfdSecMapExprOpType
  | .var _ => .QFD_SECMAP_VAR
  | .bitSelect _ _ => .QFD_SECMAP_BITSEL
  | .partSelect _ _ _ => .QFD_SECMAP_PARTSEL
  | .bitNeg _ => .QFD_SECMAP_BITNEG
  | .bitBuf _ => .QFD_SECMAP_BITBUF
  | .bitAnd _ _ => .QFD_SECMAP_BITAND
  | .bitOr _ _ => .QFD_SECMAP_BITOR
  | .bitXor _ _ => .QFD_SECMAP_BITXOR
  | .replicate _ _ => .QFD_SECMAP_REPLICATE
  | .concat _ => .QFD_SECMAP_CONCAT
  | .ternary _ _ _ => .QFD_SECMAP_TERNARY
  | .literal _ => .QFD_SECMAP_LITERAL

/-- Number of expression operands of a node; for Concat/Ternary nodes
this is the `numOperands` field of TQfdSecMapExpr (Ternary always has
3 operands: condition, then, else). -/
def TQfdSecMapBaseExpr.numOperands : TQfdSecMapBaseExpr → Nat
  | .var _ => 0
  | .bitSelect _ _ => 0
  | .partSelect _ _ _ => 0
  | .bitNeg _ => 1
  | .bitBuf _ => 1
  | .bitAnd _ _ => 2
  | .bitOr _ _ => 2
  | .bitXor _ _ => 2
  | .replicate _ _ => 1
  | .concat ops => ops.length
  | .ternary _ _ _ => 3
  | .literal _ => 0

mutual
/-- Modelled from the spec: a structural fingerprint value — node kind
plus scalar payload plus the operand fingerprints, recursively. -/
inductive Fingerprint where
  | mk (tag : TQfdSecMapExprOpType) (payload : List Nat) (children : FingerprintList)
  deriving DecidableEq, Repr
/-- Fingerprints of an ordered operand sequence. -/
inductive FingerprintList where
  | nil
  | cons (hd : Fingerprint) (tl : FingerprintList)
  deriving DecidableEq, Repr
end

mutual
/-- Modelled from the spec: the structural fingerprint of a
reconstruction expression used for alias detection — "node kind +
operand fingerprints, recursively; literal values included".  It is
order-sensitive for Concat and positional operands and count-sensitive
for Replicate because operand fingerprints are kept in positional
order and the replicate count is part of the payload. -/
def fingerprint : TQfdSecMapBaseExpr → Fingerprint
  | .var h => .mk .QFD_SECMAP_VAR [h] .nil
  | .bitSelect i h => .mk .QFD_SECMAP_BITSEL [i, h] .nil
  | .partSelect l m h => .mk .QFD_SECMAP_PARTSEL [l, m, h] .nil
  | .bitNeg e => .mk .QFD_SECMAP_BITNEG [] (.cons (fingerprint e) .nil)
  | .bitBuf e => .mk .QFD_SECMAP_BITBUF [] (.cons (fingerprint e) .nil)
  | .bitAnd l r => .mk .QFD_SECMAP_BITAND [] (.cons (fingerprint l) (.cons (fingerprint r) .nil))
  | .bitOr l r => .mk .QFD_SECMAP_BITOR [] (.cons (fingerprint l) (.cons (fingerprint r) .nil))
  | .bitXor l r => .mk .QFD_SECMAP_BITXOR [] (.cons (fingerprint l) (.cons (fingerprint r) .nil))
  | .replicate n e => .mk .QFD_SECMAP_REPLICATE [n] (.cons (fingerprint e) .nil)
  | .concat ops => .mk .QFD_SECMAP_CONCAT [] (fingerprintList ops)
  | .ternary c t e =>
      .mk .QFD_SECMAP_TERNARY []
        (.cons (fingerprint c) (.cons (fingerprint t) (.cons (fingerprint e) .nil)))
  | .literal v => .mk .QFD_SECMAP_LITERAL [v] .nil
/-- Fingerprints of the operands of a Concat node, in positional order. -/
def fingerprintList : ExprList → FingerprintList
  | .nil => .nil
  | .cons e tl => .cons (fingerprint e) (fingerprintList tl)
end

mutual
/-- Partial inverse of `fingerprint`, used to show the fingerprint is a
faithful (injective) structural encoding. -/
def unfp : Fingerprint → Option TQfdSecMapBaseExpr
  | .mk .QFD_SECMAP_VAR [h] .nil => some (.var h)
  | .mk .QFD_SECMAP_BITSEL [i, h] .nil => some (.bitSelect i h)
  | .mk .QFD_SECMAP_PARTSEL [l, m, h] .nil => some (.partSelect l m h)
  | .mk .QFD_SECMAP_BITNEG [] (.cons f .nil) => (unfp f).map .bitNeg
  | .mk .QFD_SECMAP_BITBUF [] (.cons f .nil) => (unfp f).map .bitBuf
  | .mk .QFD_SECMAP_BITAND [] (.cons f (.cons g .nil)) =>
      match unfp f, unfp g with
      | some x, some y => some (.bitAnd x y)
      | _, _ => none
  | .mk .QFD_SECMAP_BITOR [] (.cons f (.cons g .nil)) =>
      match unfp f, unfp g with
      | some x, some y => some (.bitOr x y)
      | _, _ => none
  | .mk .QFD_SECMAP_BITXOR [] (.cons f (.cons g .nil)) =>
      match unfp f, unfp g with
      | some x, some y => some (.bitXor x y)
      | _, _ => none
  | .mk .QFD_SECMAP_REPLICATE [n] (.cons f .nil) => (unfp f).map (.replicate n)
  | .mk .QFD_SECMAP_CONCAT [] fs => (unfpList fs).map .concat
  | .mk .QFD_SECMAP_TERNARY [] (.cons f (.cons g (.cons k .nil))) =>
      match unfp f, unfp g, unfp k with
      | some x, some y, some z => some (.ternary x y z)
      | _, _, _ => none
  | .mk .QFD_SECMAP_LITERAL [v] .nil => some (.literal v)
  | _ => none
/-- Partial inverse of `fingerprintList`. -/
def unfpList : FingerprintList → Option ExprList
  | .nil => some .nil
  | .cons f tl =>
      match unfp f, unfpList tl with
      | some e, some es => some (.cons e es)
      | _, _ => none
end

mutual
theorem unfp_fingerprint : ∀ (e : TQfdSecMapBaseExpr), unfp (fingerprint e) = some e
  | .var h => by simp [fingerprint, unfp]
  | .bitSelect i h => by simp [fingerprint, unfp]
  | .partSelect l m h => by simp [fingerprint, unfp]
  | .bitNeg e => by simp [fingerprint, unfp, unfp_fingerprint e]
  | .bitBuf e => by simp [fingerprint, unfp, unfp_fingerprint e]
  | .bitAnd l r => by simp [fingerprint, unfp, unfp_fingerprint l, unfp_fingerprint r]
  | .bitOr l r => by simp [fingerprint, unfp, unfp_fingerprint l, unfp_fingerprint r]
  | .bitXor l r => by simp [fingerprint, unfp, unfp_fingerprint l, unfp_fingerprint r]
  | .replicate n e => by simp [fingerprint, unfp, unfp_fingerprint e]
  | .concat ops => by simp [fingerprint, unfp, unfpList_fingerprintList ops]
  | .ternary c t e => by
      simp [fingerprint, unfp, unfp_fingerprint c, unfp_fingerprint t, unfp_fingerprint e]
  | .literal v => by simp [fingerprint, unfp]
theorem unfpList_fingerprintList : ∀ (l : ExprList), unfpList (fingerprintList l) = some l
  | .nil => by simp [fingerprintList, unfpList]
  | .cons e tl => by
      simp [fingerprintList, unfpList, unfp_fingerprint e, unfpList_fingerprintList tl]
end

/-- The structural fingerprint is injective: equal fingerprints mean
structurally equal expression trees. -/
theorem fingerprint_injective (a b : TQfdSecMapBaseExpr)
    (h : fingerprint a = fingerprint b) : a = b := by
  have ha := unfp_fingerprint a
  have hb := unfp_fingerprint b
  rw [h, hb] at ha
  exact (Option.some.injEq a b ▸ ha.symm :)

mutual
/-- Modelled from the spec: one step of the engine's internal
optimization substitution record for a Secondary handle.  It has the
same shape as the emitted tree except that a part select carries the
source-level bound pair in the array's declared direction (ascending or
descending); the builder emits offsets with msb ≥ lsb. -/
inductive RawMapExpr where
  | var (handle : qfdHandle)
  | bitSelect (idx : Nat) (handle : qfdHandle)
  | partSelect (leftBound rightBound : Nat) (handle : qfdHandle)
  | bitNeg (operand : RawMapExpr)
  | bitBuf (operand : RawMapExpr)
  | bitAnd (lhs rhs : RawMapExpr)
  | bitOr (lhs rhs : RawMapExpr)
  | bitXor (lhs rhs : RawMapExpr)
  | replicate (num : Nat) (operand : RawMapExpr)
  | concat (operands : RawList)
  | ternary (cond thenOp elseOp : RawMapExpr)
  | literal (value : Nat)
  deriving DecidableEq, Repr
/-- Ordered operand sequence of a raw Concat substitution step. -/
inductive RawList where
  | nil
  | cons (hd : RawMapExpr) (tl : RawList)
  deriving DecidableEq, Repr
end

mutual
/-- Modelled from the spec: walk the substitution record and emit one
node per substitution step, recursing into operand sub-expressions.
A part select is emitted with normalized offsets so that msb ≥ lsb
regardless of the declared direction of the selected array. -/
def buildTree : RawMapExpr → TQfdSecMapBaseExpr
  | .var h => .var h
  | .bitSelect i h => .bitSelect i h
  | .partSelect a b h => .partSelect (min a b) (max a b) h
  | .bitNeg e => .bitNeg (buildTree e)
  | .bitBuf e => .bitBuf (buildTree e)
  | .bitAnd l r => .bitAnd (buildTree l) (buildTree r)
  | .bitOr l r => .bitOr (buildTree l) (buildTree r)
  | .bitXor l r => .bitXor (buildTree l) (buildTree r)
  | .replicate n e => .replicate n (buildTree e)
  | .concat ops => .concat (buildTreeList ops)
  | .ternary c t e => .ternary (buildTree c) (buildTree t) (buildTree e)
  | .literal v => .literal v
/-- Build the operand list of a Concat substitution step, in order. -/
def buildTreeList : RawList → ExprList
  | .nil => .nil
  | .cons e tl => .cons (buildTree e) (buildTreeList tl)
end

mutual
/-- Checks the PartSelect offset invariant (msb ≥ lsb) on every node
reachable in an expression tree. -/
def psOffsetsOk : TQfdSecMapBaseExpr → Bool
  | .var _ => true
  | .bitSelect _ _ => true
  | .partSelect l m _ => decide (l ≤ m)
  | .bitNeg e => psOffsetsOk e
  | .bitBuf e => psOffsetsOk e
  | .bitAnd l r => psOffsetsOk l && psOffsetsOk r
  | .bitOr l r => psOffsetsOk l && psOffsetsOk r
  | .bitXor l r => psOffsetsOk l && psOffsetsOk r
  | .replicate _ e => psOffsetsOk e
  | .concat ops => psOffsetsOkList ops
  | .ternary c t e => psOffsetsOk c && psOffsetsOk t && psOffsetsOk e
  | .literal _ => true
/-- PartSelect offset invariant over an operand list. -/
def psOffsetsOkList : ExprList → Bool
  | .nil => true
  | .cons e tl => psOffsetsOk e && psOffsetsOkList tl
end

mutual
theorem psOffsetsOk_buildTree : ∀ (r : RawMapExpr), psOffsetsOk (buildTree r) = true
  | .var h => by simp [buildTree, psOffsetsOk]
  | .bitSelect i h => by simp [buildTree, psOffsetsOk]
  | .partSelect a b h => by simp [buildTree, psOffsetsOk]
  | .bitNeg e => by simp [buildTree, psOffsetsOk, psOffsetsOk_buildTree e]
  | .bitBuf e => by simp [buildTree, psOffsetsOk, psOffsetsOk_buildTree e]
  | .bitAnd l r => by
      simp [buildTree, psOffsetsOk, psOffsetsOk_buildTree l, psOffsetsOk_buildTree r]
  | .bitOr l r => by
      simp [buildTree, psOffsetsOk, psOffsetsOk_buildTree l, psOffsetsOk_buildTree r]
  | .bitXor l r => by
      simp [buildTree, psOffsetsOk, psOffsetsOk_buildTree l, psOffsetsOk_buildTree r]
  | .replicate n e => by simp [buildTree, psOffsetsOk, psOffsetsOk_buildTree e]
  | .concat ops => by simp [buildTree, psOffsetsOk, psOffsetsOkList_buildTreeList ops]
  | .ternary c t e => by
      simp [buildTree, psOffsetsOk, psOffsetsOk_buildTree c, psOffsetsOk_buildTree t,
        psOffsetsOk_buildTree e]
  | .literal v => by simp [buildTree, psOffsetsOk]
theorem psOffsetsOkList_buildTreeList :
    ∀ (rl : RawList), psOffsetsOkList (buildTreeList rl) = true
  | .nil => by simp [buildTreeList, psOffsetsOkList]
  | .cons e tl => by
      simp [buildTreeList, psOffsetsOkList, psOffsetsOk_buildTree e,
        psOffsetsOkList_buildTreeList tl]
end

/-- Modelled from the spec: the session-controller phases.
`qfd_init` produces the Available phase; `qfd_start`/`qfd_finalize`
toggle Available ⇄ SessionOpen; `qfd_cleanup` reaches the terminal
CleanedUp phase. -/
inductive SessionPhase where
  | available
  | sessionOpen
  | cleanedUp
  deriving DecidableEq, Repr

/-- Modelled from the spec: a callback subscription — the triple
(handle, callback function, user data).  The callback function pointer
`qfd_func_p` and the opaque user data are modelled as numeric
identifiers. -/
structure Subscription where
  handle : qfdHandle
  funcp : Nat
  userData : Nat
  deriving DecidableEq, Repr

/-- Modelled from the spec: the process-wide QFD state — session phase,
the per-handle subscription table, the per-handle memo of
`qfd_getMapExpr` results, and the fingerprint table of canonical trees
(in construction order). -/
structure QfdState where
  phase : SessionPhase
  subs : List Subscription
  mapExprMemo : List (qfdHandle × TQfdSecMapBaseExpr × Bool)
  canonTrees : List TQfdSecMapBaseExpr
  deriving DecidableEq, Repr

/-- Modelled from the spec: the engine-resident, read-only optimization
metadata the core consults — per-handle classification, language kind,
fast-logging supportability, constant value for Literal handles, and
the substitution record for Secondary handles. -/
structure Design where
  classify : qfdHandle → TQfdValType
  kind : qfdHandle → HdlKind
  supported : qfdHandle → Bool
  litVal : qfdHandle → Nat
  formula : qfdHandle → RawMapExpr

/-- Modelled from the spec: precondition-violation errors surfaced for
illegal call ordering — a registry/tree call outside an open session, a
call after cleanup, or a lifecycle transition from the wrong phase. -/
inductive QfdError where
  | sessionNotOpen
  | alreadyCleanedUp
  | notAvailable
  deriving DecidableEq, Repr

/-- Modelled from the spec: the value location returned by a successful
subscription — a pointer-like location aliasing engine memory for a
Primary, or a location holding the fixed constant for a Literal. -/
inductive ValueLocation where
  | primaryLoc (handle : qfdHandle)
  | literalLoc (value : Nat)
  deriving DecidableEq, Repr

/-- Number of active subscriptions on a handle. -/
def countSubs (s : QfdState) (hndl : qfdHandle) : Nat :=
  (s.subs.filter (fun e => decide (e.handle = hndl))).length

/-- qfd_init: one-time availability check.  Modelled from the spec:
Uninitialized → Available if the engine reports the feature present,
else failure (`none`). -/
def qfd_init (featureAvailable : Bool) : Option QfdState :=
  if featureAvailable then some ⟨.available, [], [], []⟩ else none

/-- qfd_start: Available → SessionOpen.  Modelled from the spec: the
(start, finalize) pair may be invoked many times. -/
def qfd_start (s : QfdState) : Except QfdError QfdState :=
  if s.phase = .cleanedUp then .error .alreadyCleanedUp
  else if s.phase = .available then .ok { s with phase := .sessionOpen }
  else .error .notAvailable

/-- qfd_finalize: SessionOpen → Available.  Modelled from the spec. -/
def qfd_finalize (s : QfdState) : Except QfdError QfdState :=
  if s.phase = .cleanedUp then .error .alreadyCleanedUp
  else if s.phase = .sessionOpen then .ok { s with phase := .available }
  else .error .notAvailable

/-- qfd_cleanup: Available → CleanedUp, exactly once.  Modelled from
the spec: discards iteration-support bookkeeping (the alias/fingerprint
caches) while retaining the structures required for giving callbacks
during simulation (the subscription table). -/
def qfd_cleanup (s : QfdState) : Except QfdError QfdState :=
  if s.phase = .cleanedUp then .error .alreadyCleanedUp
  else if s.phase = .available then
    .ok { phase := .cleanedUp, subs := s.subs, mapExprMemo := [], canonTrees := [] }
  else .error .notAvailable

/-- qfd_setCbAndGetValPtr: subscribe to fast value-change callbacks.
Modelled from the spec and the `qfd.h` contract: must be called inside
an open session; for a Literal handle it returns a location holding the
fixed value, ignores userData and installs no notification; for a
Primary handle it returns no location (`none`) when the object is a
Verilog object that is unsupported or already has a fast callback, and
otherwise arms exactly one hook and returns the value location (VHDL
objects have neither limitation). -/
def qfd_setCbAndGetValPtr (d : Design) (s : QfdState) (hndl : qfdHandle)
    (funcp userData : Nat) : Except QfdError (Option ValueLocation) × QfdState :=
  if s.phase = .cleanedUp then (.error .alreadyCleanedUp, s)
  else if s.phase ≠ .sessionOpen then (.error .sessionNotOpen, s)
  else
    match d.classify hndl with
    | .QFD_VAL_LITERAL => (.ok (some (.literalLoc (d.litVal hndl))), s)
    | .QFD_VAL_PRIMARY =>
        if d.kind hndl = .verilog ∧ (d.supported hndl = false ∨ countSubs s hndl ≠ 0) then
          (.ok none, s)
        else
          (.ok (some (.primaryLoc hndl)),
            { s with subs := ⟨hndl, funcp, userData⟩ :: s.subs })
    | _ => (.ok none, s)

/-- qfd_setCbAndGetValPtrForSecondary: subscribe on a Secondary handle,
asking the engine to reconstruct it.  Modelled from the spec:
semantically identical to the Primary path of qfd_setCbAndGetValPtr,
but only for handles classified Secondary. -/
def qfd_setCbAndGetValPtrForSecondary (d : Design) (s : QfdState) (hndl : qfdHandle)
    (funcp userData : Nat) : Except QfdError (Option ValueLocation) × QfdState :=
  if s.phase = .cleanedUp then (.error .alreadyCleanedUp, s)
  else if s.phase ≠ .sessionOpen then (.error .sessionNotOpen, s)
  else if d.classify hndl = .QFD_VAL_SECONDARY then
    if d.kind hndl = .verilog ∧ (d.supported hndl = false ∨ countSubs s hndl ≠ 0) then
      (.ok none, s)
    else
      (.ok (some (.primaryLoc hndl)),
        { s with subs := ⟨hndl, funcp, userData⟩ :: s.subs })
  else (.ok none, s)

/-- qfd_removeCb: remove the QFD callback for a handle.  Modelled from
the spec: returns false when no subscription existed (not fatal), true
after removing the handle's hooks. -/
def qfd_removeCb (s : QfdState) (hndl : qfdHandle) : Except QfdError Bool × QfdState :=
  if s.phase = .cleanedUp then (.error .alreadyCleanedUp, s)
  else if s.phase ≠ .sessionOpen then (.error .sessionNotOpen, s)
  else if countSubs s hndl = 0 then (.ok false, s)
  else (.ok true, { s with subs := s.subs.filter (fun e => decide (e.handle ≠ hndl)) })

/-- qfd_getMapExpr: get the reconstruction map expression of a
Secondary handle.  Modelled from the spec: memoized per handle; on a
miss the tree is built from the substitution record, then the
fingerprint table of canonical trees is consulted — a structural match
returns the already-built tree with the alias flag set, otherwise the
fresh tree is cached as canonical and returned with the alias flag
clear.  Returns `none` for handles not classified Secondary. -/
def qfd_getMapExpr (d : Design) (s : QfdState) (hndl : qfdHandle) :
    Except QfdError (Option (TQfdSecMapBaseExpr × Bool)) × QfdState :=
  if s.phase = .cleanedUp then (.error .alreadyCleanedUp, s)
  else if s.phase ≠ .sessionOpen then (.error .sessionNotOpen, s)
  else
    match s.mapExprMemo.find? (fun e => decide (e.1 = hndl)) with
    | some e => (.ok (some e.2), s)
    | none =>
        if d.classify hndl = .QFD_VAL_SECONDARY then
          match s.canonTrees.find?
              (fun c => decide (fingerprint c = fingerprint (buildTree (d.formula hndl)))) with
          | some c =>
              (.ok (some (c, true)),
                { s with mapExprMemo := (hndl, c, true) :: s.mapExprMemo })
          | none =>
              (.ok (some (buildTree (d.formula hndl), false)),
                { s with
                    mapExprMemo := (hndl, buildTree (d.formula hndl), false) :: s.mapExprMemo,
                    canonTrees := buildTree (d.formula hndl) :: s.canonTrees })
        else (.ok none, s)

/-- Modelled from the spec: the engine dispatches a value change on a
handle to every armed subscription on that handle, invoking each
callback with its user data. -/
def qfd_fire (s : QfdState) (hndl : qfdHandle) : List (Nat × Nat) :=
  (s.subs.filter (fun e => decide (e.handle = hndl))).map (fun e => (e.funcp, e.userData))

/-- A client-visible QFD API call, for reasoning about whole call
sequences. -/
inductive QfdOp where
  | start
  | finalize
  | cleanup
  | subscribe (hndl funcp userData : Nat)
  | subscribeSecondary (hndl funcp userData : Nat)
  | removeCb (hndl : Nat)
  | getMapExpr (hndl : Nat)
  deriving DecidableEq, Repr

/-- State effect of one API call (failed calls leave the state
unchanged). -/
def qfdStep (d : Design) (s : QfdState) : QfdOp → QfdState
  | .start => match qfd_start s with | .ok s2 => s2 | .error _ => s
  | .finalize => match qfd_finalize s with | .ok s2 => s2 | .error _ => s
  | .cleanup => match qfd_cleanup s with | .ok s2 => s2 | .error _ => s
  | .subscribe h f u => (qfd_setCbAndGetValPtr d s h f u).2
  | .subscribeSecondary h f u => (qfd_setCbAndGetValPtrForSecondary d s h f u).2
  | .removeCb h => (qfd_removeCb s h).2
  | .getMapExpr h => (qfd_getMapExpr d s h).2

/-- Run a sequence of API calls from a state. -/
def runOps (d : Design) (s : QfdState) : List QfdOp → QfdState
  | [] => s
  | op :: ops => runOps d (qfdStep d s op) ops

/-- Call qfd_getMapExpr on each handle in turn, collecting the
successful results in order. -/
def qfd_getMapExprList (d : Design) (s : QfdState) :
    List qfdHandle → List (TQfdSecMapBaseExpr × Bool) × QfdState
  | [] => ([], s)
  | h :: hs =>
      match qfd_getMapExpr d s h with
      | (.ok (some r), s2) =>
          let rest := qfd_getMapExprList d s2 hs
          (r :: rest.1, rest.2)
      | (_, s2) => qfd_getMapExprList d s2 hs

/-- Sample engine metadata in which every handle is a Literal of value
5 (binary 101). -/
def litDesign : Design :=
  ⟨fun _ => .QFD_VAL_LITERAL, fun _ => .verilog, fun _ => true, fun _ => 5, fun _ => .literal 5⟩

/-- Sample engine metadata in which every handle is a supported Verilog
Primary. -/
def primDesign : Design :=
  ⟨fun _ => .QFD_VAL_PRIMARY, fun _ => .verilog, fun _ => true, fun _ => 0, fun _ => .var 0⟩

/-- Sample engine metadata in which every handle is a VHDL Primary. -/
def vhdlDesign : Design :=
  ⟨fun _ => .QFD_VAL_PRIMARY, fun _ => .vhdl, fun _ => true, fun _ => 0, fun _ => .var 0⟩

/-- Sample engine metadata in which every handle is Secondary with the
part-select formula W[5:2] over the descending-declared primary 7. -/
def secDesign : Design :=
  ⟨fun _ => .QFD_VAL_SECONDARY, fun _ => .verilog, fun _ => true, fun _ => 0,
    fun _ => .partSelect 5 2 7⟩

/-- The state right after qfd_init succeeds. -/
def availState : QfdState := ⟨.available, [], [], []⟩

/-- A freshly opened session (init then start). -/
def openState : QfdState := ⟨.sessionOpen, [], [], []⟩

/-- C9: on the Literal path of qfd_setCbAndGetValPtr the userData
argument is ignored: two calls identical except for userData return the
same value location and leave the registry in the same state. -/
theorem literal_userData_independent (d : Design) (s : QfdState) (hndl f u1 u2 : Nat)
    (hlit : d.classify hndl = .QFD_VAL_LITERAL) :
    qfd_setCbAndGetValPtr d s hndl f u1 = qfd_setCbAndGetValPtr d s hndl f u2 := by
  simp [qfd_setCbAndGetValPtr, hlit]

theorem literal_userData_independent_witness :
    litDesign.classify 0 = .QFD_VAL_LITERAL ∧
    qfd_setCbAndGetValPtr litDesign openState 0 3 1 =
      qfd_setCbAndGetValPtr litDesign openState 0 3 2 :=
  ⟨rfl, literal_userData_independent litDesign openState 0 3 1 2 rfl⟩

/-- C6: the structural fingerprint is order-sensitive for Concat and
for the positional operands of BitAnd/BitOr/BitXor and Ternary, and
count-sensitive for Replicate: swapping two distinct operands, or
changing the replicate count, changes the fingerprint. -/
theorem fingerprint_order_sensitive :
    (∀ A B : TQfdSecMapBaseExpr, A ≠ B →
      fingerprint (.concat (.cons A (.cons B .nil))) ≠
        fingerprint (.concat (.cons B (.cons A .nil)))) ∧
    (∀ A B : TQfdSecMapBaseExpr, A ≠ B →
      fingerprint (.bitAnd A B) ≠ fingerprint (.bitAnd B A)) ∧
    (∀ A B : TQfdSecMapBaseExpr, A ≠ B →
      fingerprint (.bitOr A B) ≠ fingerprint (.bitOr B A)) ∧
    (∀ A B : TQfdSecMapBaseExpr, A ≠ B →
      fingerprint (.bitXor A B) ≠ fingerprint (.bitXor B A)) ∧
    (∀ C A B : TQfdSecMapBaseExpr, A ≠ B →
      fingerprint (.ternary C A B) ≠ fingerprint (.ternary C B A)) ∧
    (∀ (n m : Nat) (e : TQfdSecMapBaseExpr), n ≠ m →
      fingerprint (.replicate n e) ≠ fingerprint (.replicate m e)) := by
  refine ⟨?_, ?_, ?_, ?_, ?_, ?_⟩
  · intro A B hne heq
    have h2 := fingerprint_injective _ _ heq
    simp only [TQfdSecMapBaseExpr.concat.injEq, ExprList.cons.injEq] at h2
    exact hne h2.1
  · intro A B hne heq
    have h2 := fingerprint_injective _ _ heq
    simp only [TQfdSecMapBaseExpr.bitAnd.injEq] at h2
    exact hne h2.1
  · intro A B hne heq
    have h2 := fingerprint_injective _ _ heq
    simp only [TQfdSecMapBaseExpr.bitOr.injEq] at h2
    exact hne h2.1
  · intro A B hne heq
    have h2 := fingerprint_injective _ _ heq
    simp only [TQfdSecMapBaseExpr.bitXor.injEq] at h2
    exact hne h2.1
  · intro C A B hne heq
    have h2 := fingerprint_injective _ _ heq
    simp only [TQfdSecMapBaseExpr.ternary.injEq] at h2
    exact hne h2.2.1
  · intro n m e hne heq
    have h2 := fingerprint_injective _ _ heq
    simp only [TQfdSecMapBaseExpr.replicate.injEq] at h2
    exact hne h2.1

theorem fingerprint_order_sensitive_witness :
    (TQfdSecMapBaseExpr.var 0 ≠ .var 1) ∧
    fingerprint (.concat (.cons (.var 0) (.cons (.var 1) .nil))) ≠
      fingerprint (.concat (.cons (.var 1) (.cons (.var 0) .nil))) :=
  ⟨by decide, fingerprint_order_sensitive.1 (.var 0) (.var 1) (by decide)⟩

/-- C10: the opType tag of every reachable expression node is one of
the twelve enumerated QFD_SECMAP values, the tag fully determines the
concrete struct variant, and a Ternary node has numOperands equal
to 3. -/
theorem opType_closed_and_determines_variant (e : TQfdSecMapBaseExpr) :
    e.opType ∈ [TQfdSecMapExprOpType.QFD_SECMAP_VAR, .QFD_SECMAP_BITSEL, .QFD_SECMAP_PARTSEL,
      .QFD_SECMAP_CONCAT, .QFD_SECMAP_REPLICATE, .QFD_SECMAP_BITAND, .QFD_SECMAP_BITOR,
      .QFD_SECMAP_BITXOR, .QFD_SECMAP_BITNEG, .QFD_SECMAP_BITBUF, .QFD_SECMAP_TERNARY,
      .QFD_SECMAP_LITERAL] ∧
    (e.opType = .QFD_SECMAP_TERNARY → e.numOperands = 3) ∧
    (e.opType = .QFD_SECMAP_VAR → ∃ h, e = .var h) ∧
    (e.opType = .QFD_SECMAP_BITSEL → ∃ i h, e = .bitSelect i h) ∧
    (e.opType = .QFD_SECMAP_PARTSEL → ∃ l m h, e = .partSelect l m h) ∧
    (e.opType = .QFD_SECMAP_BITNEG → ∃ x, e = .bitNeg x) ∧
    (e.opType = .QFD_SECMAP_BITBUF → ∃ x, e = .bitBuf x) ∧
    (e.opType = .QFD_SECMAP_BITAND → ∃ x y, e = .bitAnd x y) ∧
    (e.opType = .QFD_SECMAP_BITOR → ∃ x y, e = .bitOr x y) ∧
    (e.opType = .QFD_SECMAP_BITXOR → ∃ x y, e = .bitXor x y) ∧
    (e.opType = .QFD_SECMAP_REPLICATE → ∃ n x, e = .replicate n x) ∧
    (e.opType = .QFD_SECMAP_CONCAT → ∃ ops, e = .concat ops) ∧
    (e.opType = .QFD_SECMAP_TERNARY → ∃ c t f, e = .ternary c t f) ∧
    (e.opType = .QFD_SECMAP_LITERAL → ∃ v, e = .literal v) := by
  cases e <;> simp [TQfdSecMapBaseExpr.opType, TQfdSecMapBaseExpr.numOperands]

theorem opType_closed_and_determines_variant_witness :
    (TQfdSecMapBaseExpr.ternary (.var 0) (.var 1) (.var 2)).opType = .QFD_SECMAP_TERNARY ∧
    (TQfdSecMapBaseExpr.ternary (.var 0) (.var 1) (.var 2)).numOperands = 3 :=
  ⟨rfl, (opType_closed_and_determines_variant (.ternary (.var 0) (.var 1) (.var 2))).2.1 rfl⟩

/-- C4: qfd_cleanup moves Available to the terminal CleanedUp phase
exactly once, discarding the alias/fingerprint bookkeeping while the
armed hooks keep firing, and every subsequent qfd_getMapExpr or
qfd_setCbAndGetValPtr call is rejected as a precondition violation. -/
theorem cleanup_terminal_and_rejects (d : Design) (s : QfdState) (hndl f u : Nat)
    (hph : s.phase = .available) :
    ∃ s2, qfd_cleanup s = .ok s2 ∧
      s2.phase = .cleanedUp ∧
      s2.mapExprMemo = [] ∧
      s2.canonTrees = [] ∧
      s2.subs = s.subs ∧
      (∀ h2, qfd_fire s2 h2 = qfd_fire s h2) ∧
      qfd_cleanup s2 = .error .alreadyCleanedUp ∧
      (qfd_setCbAndGetValPtr d s2 hndl f u).1 = .error .alreadyCleanedUp ∧
      (qfd_getMapExpr d s2 hndl).1 = .error .alreadyCleanedUp := by
  refine ⟨⟨.cleanedUp, s.subs, [], []⟩, ?_, rfl, rfl, rfl, rfl, ?_, ?_, ?_, ?_⟩
  · simp [qfd_cleanup, hph]
  · intro h2; simp [qfd_fire]
  · simp [qfd_cleanup]
  · simp [qfd_setCbAndGetValPtr]
  · simp [qfd_getMapExpr]

theorem cleanup_terminal_and_rejects_witness :
    availState.phase = .available ∧
    ∃ s2, qfd_cleanup availState = .ok s2 ∧
      s2.phase = .cleanedUp ∧
      s2.mapExprMemo = [] ∧
      s2.canonTrees = [] ∧
      s2.subs = availState.subs ∧
      (∀ h2, qfd_fire s2 h2 = qfd_fire availState h2) ∧
      qfd_cleanup s2 = .error .alreadyCleanedUp ∧
      (qfd_setCbAndGetValPtr primDesign s2 0 0 0).1 = .error .alreadyCleanedUp ∧
      (qfd_getMapExpr primDesign s2 0).1 = .error .alreadyCleanedUp :=
  ⟨rfl, cleanup_terminal_and_rejects primDesign availState 0 0 0 rfl⟩

/-- C1: after qfd_init but before any qfd_start, and likewise after a
qfd_finalize with no subsequent qfd_start, a subscribe call fails with
a session-not-open precondition violation; after start, finalize,
start (the pair is reentrant) a subscribe call inside the reopened
session succeeds. -/
theorem session_discipline (d : Design) (hndl f u : Nat)
    (hcls : d.classify hndl = .QFD_VAL_PRIMARY) (hsup : d.supported hndl = true) :
    ∃ s0 s1 s2 s3 loc,
      qfd_init true = some s0 ∧
      (qfd_setCbAndGetValPtr d s0 hndl f u).1 = .error .sessionNotOpen ∧
      qfd_start s0 = .ok s1 ∧
      qfd_finalize s1 = .ok s2 ∧
      (qfd_setCbAndGetValPtr d s2 hndl f u).1 = .error .sessionNotOpen ∧
      qfd_start s2 = .ok s3 ∧
      (qfd_setCbAndGetValPtr d s3 hndl f u).1 = .ok (some loc) := by
  refine ⟨⟨.available, [], [], []⟩, ⟨.sessionOpen, [], [], []⟩, ⟨.available, [], [], []⟩,
    ⟨.sessionOpen, [], [], []⟩, .primaryLoc hndl, ?_, ?_, ?_, ?_, ?_, ?_, ?_⟩
  · simp [qfd_init]
  · simp [qfd_setCbAndGetValPtr]
  · simp [qfd_start]
  · simp [qfd_finalize]
  · simp [qfd_setCbAndGetValPtr]
  · simp [qfd_start]
  · simp [qfd_setCbAndGetValPtr, hcls, hsup, countSubs]

theorem session_discipline_witness :
    primDesign.classify 4 = .QFD_VAL_PRIMARY ∧ primDesign.supported 4 = true ∧
    ∃ s0 s1 s2 s3 loc,
      qfd_init true = some s0 ∧
      (qfd_setCbAndGetValPtr primDesign s0 4 1 2).1 = .error .sessionNotOpen ∧
      qfd_start s0 = .ok s1 ∧
      qfd_finalize s1 = .ok s2 ∧
      (qfd_setCbAndGetValPtr primDesign s2 4 1 2).1 = .error .sessionNotOpen ∧
      qfd_start s2 = .ok s3 ∧
      (qfd_setCbAndGetValPtr primDesign s3 4 1 2).1 = .ok (some loc) :=
  ⟨rfl, rfl, session_discipline primDesign 4 1 2 rfl rfl⟩

theorem filter_handle_of_filter_ne (l : List Subscription) (hndl : Nat) :
    List.filter (fun e => decide (e.handle = hndl))
      (List.filter (fun e => decide (e.handle ≠ hndl)) l) = [] := by
  rw [List.filter_filter]
  rw [List.filter_eq_nil_iff]
  intro e he
  simp

/-- C8: for a Primary handle, a successful subscribe followed by
qfd_removeCb returns true, an immediately subsequent qfd_removeCb
returns false, and qfd_removeCb on a handle with no subscription
returns false without being fatal. -/
theorem subscribe_remove_remove (d : Design) (s : QfdState) (hndl f u : Nat)
    (loc : ValueLocation) (s2 : QfdState) :
    (d.classify hndl = .QFD_VAL_PRIMARY →
      qfd_setCbAndGetValPtr d s hndl f u = (.ok (some loc), s2) →
      ∃ s3, qfd_removeCb s2 hndl = (.ok true, s3) ∧
        qfd_removeCb s3 hndl = (.ok false, s3)) ∧
    (s.phase = .sessionOpen → countSubs s hndl = 0 →
      qfd_removeCb s hndl = (.ok false, s)) := by
  constructor
  · intro hcls hsub
    unfold qfd_setCbAndGetValPtr at hsub
    rw [hcls] at hsub
    split at hsub
    · simp at hsub
    next hnc =>
      split at hsub
      · simp at hsub
      next hnopen =>
        have hopen : s.phase = .sessionOpen := not_not.mp hnopen
        simp only [] at hsub
        split at hsub
        · simp at hsub
        next hcond =>
          simp only [Prod.mk.injEq, Except.ok.injEq, Option.some.injEq] at hsub
          obtain ⟨hloc, hs2⟩ := hsub
          subst hs2
          refine ⟨⟨s.phase,
            (Subscription.mk hndl f u :: s.subs).filter (fun e => decide (e.handle ≠ hndl)),
            s.mapExprMemo, s.canonTrees⟩, ?_, ?_⟩
          · simp [qfd_removeCb, hopen, countSubs, List.filter_cons]
          · simp [qfd_removeCb, hopen, countSubs, filter_handle_of_filter_ne]
  · intro hopen h0
    simp [qfd_removeCb, hopen, h0]

theorem subscribe_remove_remove_witness :
    primDesign.classify 0 = .QFD_VAL_PRIMARY ∧
    qfd_setCbAndGetValPtr primDesign openState 0 1 2 =
      (.ok (some (.primaryLoc 0)), ⟨.sessionOpen, [⟨0, 1, 2⟩], [], []⟩) ∧
    (∃ s3, qfd_removeCb ⟨.sessionOpen, [⟨0, 1, 2⟩], [], []⟩ 0 = (.ok true, s3) ∧
      qfd_removeCb s3 0 = (.ok false, s3)) :=
  ⟨rfl, rfl,
    (subscribe_remove_remove primDesign openState 0 1 2 (.primaryLoc 0)
      ⟨.sessionOpen, [⟨0, 1, 2⟩], [], []⟩).1 rfl rfl⟩

theorem subs_qfd_start (s s2 : QfdState) (h : qfd_start s = .ok s2) : s2.subs = s.subs := by
  unfold qfd_start at h
  split at h
  · simp at h
  · split at h
    · simp only [Except.ok.injEq] at h
      subst h
      rfl
    · simp at h

theorem subs_qfd_finalize (s s2 : QfdState) (h : qfd_finalize s = .ok s2) :
    s2.subs = s.subs := by
  unfold qfd_finalize at h
  split at h
  · simp at h
  · split at h
    · simp only [Except.ok.injEq] at h
      subst h
      rfl
    · simp at h

theorem subs_qfd_cleanup (s s2 : QfdState) (h : qfd_cleanup s = .ok s2) :
    s2.subs = s.subs := by
  unfold qfd_cleanup at h
  split at h
  · simp at h
  · split at h
    · simp only [Except.ok.injEq] at h
      subst h
      rfl
    · simp at h

theorem subs_qfd_getMapExpr (d : Design) (s : QfdState) (hndl : Nat) :
    ((qfd_getMapExpr d s hndl).2).subs = s.subs := by
  unfold qfd_getMapExpr
  split
  · rfl
  · split
    · rfl
    · split
      · rfl
      · split
        · split
          · rfl
          · rfl
        · rfl

theorem countSubs_eq_of_subs (s t : QfdState) (hndl : Nat) (h : t.subs = s.subs) :
    countSubs t hndl = countSubs s hndl := by
  simp [countSubs, h]

theorem countSubs_filter_le (s : QfdState) (p : Subscription → Bool) (hndl : Nat) :
    countSubs { s with subs := s.subs.filter p } hndl ≤ countSubs s hndl := by
  simp only [countSubs]
  exact List.Sublist.length_le (List.Sublist.filter _ (List.filter_sublist _))

theorem qfd_fire_of_countSubs_zero (s : QfdState) (hndl : Nat)
    (h : countSubs s hndl = 0) : qfd_fire s hndl = [] := by
  unfold countSubs at h
  rw [List.length_eq_zero] at h
  unfold qfd_fire
  rw [h]
  rfl

theorem countSubs_qfdStep_literal (d : Design) (s : QfdState) (hndl : Nat) (op : QfdOp)
    (hlit : d.classify hndl = .QFD_VAL_LITERAL) (h0 : countSubs s hndl = 0) :
    countSubs (qfdStep d s op) hndl = 0 := by
  cases op with
  | start =>
      simp only [qfdStep]
      split
      next s2 heq => rw [countSubs_eq_of_subs s s2 hndl (subs_qfd_start s s2 heq)]; exact h0
      next => exact h0
  | finalize =>
      simp only [qfdStep]
      split
      next s2 heq => rw [countSubs_eq_of_subs s s2 hndl (subs_qfd_finalize s s2 heq)]; exact h0
      next => exact h0
  | cleanup =>
      simp only [qfdStep]
      split
      next s2 heq => rw [countSubs_eq_of_subs s s2 hndl (subs_qfd_cleanup s s2 heq)]; exact h0
      next => exact h0
  | getMapExpr h2 =>
      simp only [qfdStep]
      rw [countSubs_eq_of_subs s _ hndl (subs_qfd_getMapExpr d s h2)]
      exact h0
  | removeCb h2 =>
      simp only [qfdStep]
      unfold qfd_removeCb
      split
      · exact h0
      · split
        · exact h0
        · split
          · exact h0
          · have hle := countSubs_filter_le s (fun e => decide (e.handle ≠ h2)) hndl
            simp only [countSubs] at hle h0 ⊢
            omega
  | subscribe h2 f u =>
      simp only [qfdStep]
      unfold qfd_setCbAndGetValPtr
      split
      · exact h0
      · split
        · exact h0
        · split
          · exact h0
          next heq =>
            split
            · exact h0
            next hcond =>
              by_cases hh : h2 = hndl
              · subst hh
                rw [hlit] at heq
                cases heq
              · simp only [countSubs, List.filter_cons]
                simp only [countSubs] at h0
                simp [hh, h0]
          · exact h0
  | subscribeSecondary h2 f u =>
      simp only [qfdStep]
      unfold qfd_setCbAndGetValPtrForSecondary
      split
      · exact h0
      · split
        · exact h0
        · split
          next heq =>
            split
            · exact h0
            next hcond =>
              by_cases hh : h2 = hndl
              · subst hh
                rw [hlit] at heq
                cases heq
              · simp only [countSubs, List.filter_cons]
                simp only [countSubs] at h0
                simp [hh, h0]
          · exact h0

theorem countSubs_runOps_literal (d : Design) (hndl : Nat)
    (hlit : d.classify hndl = .QFD_VAL_LITERAL) :
    ∀ (ops : List QfdOp) (s : QfdState), countSubs s hndl = 0 →
      countSubs (runOps d s ops) hndl = 0
  | [], _, h0 => h0
  | op :: ops, s, h0 =>
      countSubs_runOps_literal d hndl hlit ops (qfdStep d s op)
        (countSubs_qfdStep_literal d s hndl op hlit h0)

/-- C5: subscribing on a Literal handle returns a location holding the
handle's fixed constant value, installs no notification (the state is
unchanged), and the callback is never invoked for that handle no matter
which API calls and value changes follow. -/
theorem literal_subscribe_no_callback (d : Design) (s : QfdState) (hndl f u : Nat)
    (hlit : d.classify hndl = .QFD_VAL_LITERAL) :
    (s.phase = .sessionOpen →
      qfd_setCbAndGetValPtr d s hndl f u =
        (.ok (some (.literalLoc (d.litVal hndl))), s)) ∧
    (countSubs s hndl = 0 → ∀ ops, qfd_fire (runOps d s ops) hndl = []) := by
  constructor
  · intro hopen
    simp [qfd_setCbAndGetValPtr, hlit, hopen]
  · intro h0 ops
    exact qfd_fire_of_countSubs_zero _ _ (countSubs_runOps_literal d hndl hlit ops s h0)

theorem literal_subscribe_no_callback_witness :
    litDesign.classify 2 = .QFD_VAL_LITERAL ∧
    openState.phase = .sessionOpen ∧
    countSubs openState 2 = 0 ∧
    litDesign.litVal 2 = 5 ∧
    qfd_setCbAndGetValPtr litDesign openState 2 1 9 =
      (.ok (some (.literalLoc 5)), openState) ∧
    qfd_fire (runOps litDesign openState
      [.subscribe 2 1 9, .finalize, .start, .subscribe 2 1 9, .getMapExpr 2]) 2 = [] :=
  ⟨rfl, rfl, rfl, rfl,
    (literal_subscribe_no_callback litDesign openState 2 1 9 rfl).1 rfl,
    (literal_subscribe_no_callback litDesign openState 2 1 9 rfl).2 rfl _⟩

theorem countSubs_qfdStep_verilog_le_one (d : Design) (s : QfdState) (hndl : Nat) (op : QfdOp)
    (hv : d.kind hndl = .verilog) (hle : countSubs s hndl ≤ 1) :
    countSubs (qfdStep d s op) hndl ≤ 1 := by
  cases op with
  | start =>
      simp only [qfdStep]
      split
      next s2 heq => rw [countSubs_eq_of_subs s s2 hndl (subs_qfd_start s s2 heq)]; exact hle
      next => exact hle
  | finalize =>
      simp only [qfdStep]
      split
      next s2 heq => rw [countSubs_eq_of_subs s s2 hndl (subs_qfd_finalize s s2 heq)]; exact hle
      next => exact hle
  | cleanup =>
      simp only [qfdStep]
      split
      next s2 heq => rw [countSubs_eq_of_subs s s2 hndl (subs_qfd_cleanup s s2 heq)]; exact hle
      next => exact hle
  | getMapExpr h2 =>
      simp only [qfdStep]
      rw [countSubs_eq_of_subs s _ hndl (subs_qfd_getMapExpr d s h2)]
      exact hle
  | removeCb h2 =>
      simp only [qfdStep]
      unfold qfd_removeCb
      split
      · exact hle
      · split
        · exact hle
        · split
          · exact hle
          · have h2le := countSubs_filter_le s (fun e => decide (e.handle ≠ h2)) hndl
            simp only [countSubs] at h2le hle ⊢
            omega
  | subscribe h2 f u =>
      simp only [qfdStep]
      unfold qfd_setCbAndGetValPtr
      split
      · exact hle
      · split
        · exact hle
        · split
          · exact hle
          · split
            · exact hle
            next hcond =>
              by_cases hh : h2 = hndl
              · rw [← hh] at hle hv ⊢
                push_neg at hcond
                obtain ⟨hsup2, hcnt⟩ := hcond hv
                show countSubs { s with subs := Subscription.mk h2 f u :: s.subs } h2 ≤ 1
                have heq2 : countSubs { s with subs := Subscription.mk h2 f u :: s.subs } h2
                    = countSubs s h2 + 1 := by
                  simp [countSubs, List.filter_cons]
                rw [heq2, hcnt]
              · show countSubs { s with subs := Subscription.mk h2 f u :: s.subs } hndl ≤ 1
                have heq2 : countSubs { s with subs := Subscription.mk h2 f u :: s.subs } hndl
                    = countSubs s hndl := by
                  simp [countSubs, List.filter_cons, hh]
                rw [heq2]
                exact hle
          · exact hle
  | subscribeSecondary h2 f u =>
      simp only [qfdStep]
      unfold qfd_setCbAndGetValPtrForSecondary
      split
      · exact hle
      · split
        · exact hle
        · split
          · split
            · exact hle
            next hcond =>
              by_cases hh : h2 = hndl
              · rw [← hh] at hle hv ⊢
                push_neg at hcond
                obtain ⟨hsup2, hcnt⟩ := hcond hv
                show countSubs { s with subs := Subscription.mk h2 f u :: s.subs } h2 ≤ 1
                have heq2 : countSubs { s with subs := Subscription.mk h2 f u :: s.subs } h2
                    = countSubs s h2 + 1 := by
                  simp [countSubs, List.filter_cons]
                rw [heq2, hcnt]
              · show countSubs { s with subs := Subscription.mk h2 f u :: s.subs } hndl ≤ 1
                have heq2 : countSubs { s with subs := Subscription.mk h2 f u :: s.subs } hndl
                    = countSubs s hndl := by
                  simp [countSubs, List.filter_cons, hh]
                rw [heq2]
                exact hle
          · exact hle

theorem countSubs_runOps_verilog_le_one (d : Design) (hndl : Nat)
    (hv : d.kind hndl = .verilog) :
    ∀ (ops : List QfdOp) (s : QfdState), countSubs s hndl ≤ 1 →
      countSubs (runOps d s ops) hndl ≤ 1
  | [], _, hle => hle
  | op :: ops, s, hle =>
      countSubs_runOps_verilog_le_one d hndl hv ops (qfdStep d s op)
        (countSubs_qfdStep_verilog_le_one d s hndl op hv hle)

/-- C3: a second subscribe attempt on a Verilog-kind Primary handle
that already has an active subscription returns an absent ValueLocation
and leaves the state unchanged; a VHDL-kind Primary handle accepts
simultaneous subscriptions; and along every call sequence from the
initial state, a Verilog-kind handle carries at most one subscription. -/
theorem verilog_single_subscription (d : Design) (hndl : Nat) :
    (∀ (s : QfdState) (f u : Nat), s.phase = .sessionOpen →
      d.classify hndl = .QFD_VAL_PRIMARY → d.kind hndl = .verilog →
      countSubs s hndl ≠ 0 →
      qfd_setCbAndGetValPtr d s hndl f u = (.ok none, s)) ∧
    (∀ (s : QfdState) (f u : Nat), s.phase = .sessionOpen →
      d.classify hndl = .QFD_VAL_PRIMARY → d.kind hndl = .vhdl →
      qfd_setCbAndGetValPtr d s hndl f u =
        (.ok (some (.primaryLoc hndl)), { s with subs := ⟨hndl, f, u⟩ :: s.subs }) ∧
      countSubs { s with subs := ⟨hndl, f, u⟩ :: s.subs } hndl = countSubs s hndl + 1) ∧
    (d.kind hndl = .verilog → ∀ ops, countSubs (runOps d availState ops) hndl ≤ 1) := by
  refine ⟨?_, ?_, ?_⟩
  · intro s f u hopen hcls hkind hne
    simp [qfd_setCbAndGetValPtr, hopen, hcls, hkind, hne]
  · intro s f u hopen hcls hkind
    constructor
    · simp [qfd_setCbAndGetValPtr, hopen, hcls, hkind]
    · simp [countSubs, List.filter_cons]
  · intro hv ops
    exact countSubs_runOps_verilog_le_one d hndl hv ops availState (by simp [countSubs, availState])

theorem verilog_single_subscription_witness :
    (⟨.sessionOpen, [⟨0, 1, 2⟩], [], []⟩ : QfdState).phase = .sessionOpen ∧
    primDesign.classify 0 = .QFD_VAL_PRIMARY ∧
    primDesign.kind 0 = .verilog ∧
    countSubs ⟨.sessionOpen, [⟨0, 1, 2⟩], [], []⟩ 0 ≠ 0 ∧
    qfd_setCbAndGetValPtr primDesign ⟨.sessionOpen, [⟨0, 1, 2⟩], [], []⟩ 0 3 4 =
      (.ok none, ⟨.sessionOpen, [⟨0, 1, 2⟩], [], []⟩) ∧
    vhdlDesign.kind 0 = .vhdl ∧
    qfd_setCbAndGetValPtr vhdlDesign ⟨.sessionOpen, [⟨0, 1, 2⟩], [], []⟩ 0 3 4 =
      (.ok (some (.primaryLoc 0)), ⟨.sessionOpen, [⟨0, 3, 4⟩, ⟨0, 1, 2⟩], [], []⟩) ∧
    countSubs (runOps primDesign availState
      [.start, .subscribe 0 1 2, .subscribe 0 3 4, .subscribe 0 5 6]) 0 ≤ 1 :=
  ⟨rfl, rfl, rfl, by decide,
    (verilog_single_subscription primDesign 0).1 ⟨.sessionOpen, [⟨0, 1, 2⟩], [], []⟩ 3 4
      rfl rfl rfl (by decide),
    rfl,
    ((verilog_single_subscription vhdlDesign 0).2.1 ⟨.sessionOpen, [⟨0, 1, 2⟩], [], []⟩ 3 4
      rfl rfl rfl).1,
    (verilog_single_subscription primDesign 0).2.2 rfl
      [.start, .subscribe 0 1 2, .subscribe 0 3 4, .subscribe 0 5 6]⟩

/-- All trees held by the alias/fingerprint caches satisfy the
PartSelect offset invariant. -/
def treeInv (s : QfdState) : Prop :=
  (∀ t ∈ s.canonTrees, psOffsetsOk t = true) ∧
  (∀ e ∈ s.mapExprMemo, psOffsetsOk e.2.1 = true)

/-- C7: in every tree returned by qfd_getMapExpr, every PartSelect node
has msb ≥ lsb, regardless of the declared direction of the underlying
array; the caches keep satisfying this invariant, and the initial state
satisfies it trivially. -/
theorem partselect_offsets_ordered :
    (∀ (d : Design) (s : QfdState) (hndl : Nat) (t : TQfdSecMapBaseExpr) (a : Bool)
        (s2 : QfdState), treeInv s →
      qfd_getMapExpr d s hndl = (.ok (some (t, a)), s2) →
      psOffsetsOk t = true ∧ treeInv s2) ∧
    (∀ (b : Bool) (s0 : QfdState), qfd_init b = some s0 → treeInv s0) := by
  constructor
  · intro d s hndl t a s2 hinv h
    unfold qfd_getMapExpr at h
    split at h
    · simp at h
    · split at h
      · simp at h
      · split at h
        next e heq =>
          simp only [Prod.mk.injEq, Except.ok.injEq, Option.some.injEq] at h
          obtain ⟨hr, hs2⟩ := h
          subst hs2
          have hmem := List.mem_of_find?_eq_some heq
          have hok := hinv.2 e hmem
          constructor
          · rw [hr] at hok
            simpa using hok
          · exact hinv
        next heq =>
          split at h
          next hcls =>
            split at h
            next c hc =>
              simp only [Prod.mk.injEq, Except.ok.injEq, Option.some.injEq] at h
              obtain ⟨hr, hs2⟩ := h
              subst hs2
              have hcmem := List.mem_of_find?_eq_some hc
              have hok := hinv.1 c hcmem
              constructor
              · rw [← hr.1]
                exact hok
              · constructor
                · exact hinv.1
                · intro e2 he2
                  rcases List.mem_cons.mp he2 with h1 | h2
                  · subst h1
                    exact hok
                  · exact hinv.2 e2 h2
            next hc =>
              simp only [Prod.mk.injEq, Except.ok.injEq, Option.some.injEq] at h
              obtain ⟨hr, hs2⟩ := h
              subst hs2
              constructor
              · rw [← hr.1]
                exact psOffsetsOk_buildTree _
              · constructor
                · intro t2 ht2
                  rcases List.mem_cons.mp ht2 with h1 | h2
                  · subst h1
                    exact psOffsetsOk_buildTree _
                  · exact hinv.1 t2 h2
                · intro e2 he2
                  rcases List.mem_cons.mp he2 with h1 | h2
                  · subst h1
                    exact psOffsetsOk_buildTree _
                  · exact hinv.2 e2 h2
          next hcls =>
            simp at h
  · intro b s0 h
    unfold qfd_init at h
    split at h
    · simp only [Option.some.injEq] at h
      subst h
      constructor
      · intro t ht
        simp at ht
      · intro e he
        simp at he
    · simp at h

theorem partselect_offsets_ordered_witness :
    treeInv openState ∧
    qfd_getMapExpr secDesign openState 0 =
      (.ok (some (.partSelect 2 5 7, false)),
        ⟨.sessionOpen, [], [(0, .partSelect 2 5 7, false)], [.partSelect 2 5 7]⟩) ∧
    (psOffsetsOk (.partSelect 2 5 7) = true ∧
      treeInv ⟨.sessionOpen, [], [(0, .partSelect 2 5 7, false)], [.partSelect 2 5 7]⟩) :=
  ⟨⟨fun t ht => by simp [openState] at ht, fun e he => by simp [openState] at he⟩, rfl,
    partselect_offsets_ordered.1 secDesign openState 0 (.partSelect 2 5 7) false
      ⟨.sessionOpen, [], [(0, .partSelect 2 5 7, false)], [.partSelect 2 5 7]⟩
      ⟨fun t ht => by simp [openState] at ht, fun e he => by simp [openState] at he⟩ rfl⟩

theorem getMapExprList_alias_aux (d : Design) (t0 : TQfdSecMapBaseExpr) :
    ∀ (hs : List Nat) (s : QfdState),
      s.phase = .sessionOpen →
      s.canonTrees = [t0] →
      (∀ e ∈ s.mapExprMemo, e.1 ∈ hs → e.2 = (t0, true)) →
      (∀ h ∈ hs, d.classify h = .QFD_VAL_SECONDARY) →
      (∀ h ∈ hs, fingerprint (buildTree (d.formula h)) = fingerprint t0) →
      (qfd_getMapExprList d s hs).1 =
        hs.map (fun _ => ((t0, true) : TQfdSecMapBaseExpr × Bool)) := by
  intro hs
  induction hs with
  | nil => intro s _ _ _ _ _; rfl
  | cons h tl ih =>
      intro s hopen hcanon hmemo hsec hfp
      have hnc : ¬s.phase = .cleanedUp := by rw [hopen]; simp
      have hnno : ¬s.phase ≠ .sessionOpen := by rw [hopen]; simp
      rcases hfind : s.mapExprMemo.find? (fun e => decide (e.1 = h)) with _ | e
      · have hcall : qfd_getMapExpr d s h =
            (.ok (some (t0, true)),
              { s with mapExprMemo := (h, t0, true) :: s.mapExprMemo }) := by
          unfold qfd_getMapExpr
          rw [if_neg hnc, if_neg hnno, hfind]
          simp only []
          rw [if_pos (hsec h (List.mem_cons_self h tl)), hcanon]
          rw [List.find?_cons_of_pos _ (by
            simp only [decide_eq_true_eq]
            exact (hfp h (List.mem_cons_self h tl)).symm)]
        unfold qfd_getMapExprList
        rw [hcall]
        simp only [List.map_cons]
        have hrest := ih { s with mapExprMemo := (h, t0, true) :: s.mapExprMemo }
          hopen hcanon
          (by
            intro e2 he2 hin
            rcases List.mem_cons.mp he2 with h1 | h2
            · subst h1; rfl
            · exact hmemo e2 h2 (List.mem_cons_of_mem _ hin))
          (fun h2 hh => hsec h2 (List.mem_cons_of_mem _ hh))
          (fun h2 hh => hfp h2 (List.mem_cons_of_mem _ hh))
        rw [hrest]
      · have he_mem := List.mem_of_find?_eq_some hfind
        have he_pred := List.find?_some hfind
        simp only [decide_eq_true_eq] at he_pred
        have he2 : e.2 = (t0, true) :=
          hmemo e he_mem (by rw [he_pred]; exact List.mem_cons_self h tl)
        have hcall : qfd_getMapExpr d s h = (.ok (some (t0, true)), s) := by
          unfold qfd_getMapExpr
          rw [if_neg hnc, if_neg hnno, hfind]
          simp only []
          rw [he2]
        unfold qfd_getMapExprList
        rw [hcall]
        simp only [List.map_cons]
        have hrest := ih s hopen hcanon
          (fun e2 he2m hin => hmemo e2 he2m (List.mem_cons_of_mem _ hin))
          (fun h2 hh => hsec h2 (List.mem_cons_of_mem _ hh))
          (fun h2 hh => hfp h2 (List.mem_cons_of_mem _ hh))
        rw [hrest]

/-- C2: qfd_getMapExpr is memoized per handle — a second call with the
same handle returns the same tree reference and the same alias flag
without changing the state — and across a set of Secondary handles
whose reconstruction formulas have identical structural fingerprints,
the first call returns the shared tree with the alias flag clear and
every later handle gets the very same tree with the alias flag set. -/
theorem getMapExpr_memoized_and_aliased :
    (∀ (d : Design) (s : QfdState) (hndl : Nat) (r : TQfdSecMapBaseExpr × Bool)
        (s2 : QfdState),
      qfd_getMapExpr d s hndl = (.ok (some r), s2) →
      qfd_getMapExpr d s2 hndl = (.ok (some r), s2)) ∧
    (∀ (d : Design) (s : QfdState) (h0 : Nat) (rest : List Nat),
      s.phase = .sessionOpen → s.mapExprMemo = [] → s.canonTrees = [] →
      d.classify h0 = .QFD_VAL_SECONDARY →
      h0 ∉ rest →
      (∀ h ∈ rest, d.classify h = .QFD_VAL_SECONDARY) →
      (∀ h ∈ rest, fingerprint (buildTree (d.formula h)) =
        fingerprint (buildTree (d.formula h0))) →
      (qfd_getMapExprList d s (h0 :: rest)).1 =
        (buildTree (d.formula h0), false) ::
          rest.map (fun _ => ((buildTree (d.formula h0), true) :
            TQfdSecMapBaseExpr × Bool))) := by
  constructor
  · intro d s hndl r s2 h
    unfold qfd_getMapExpr at h
    split at h
    · simp at h
    next hnc =>
      split at h
      · simp at h
      next hnopen =>
        split at h
        next e heq =>
          simp only [Prod.mk.injEq, Except.ok.injEq, Option.some.injEq] at h
          obtain ⟨hr, hs2⟩ := h
          subst hs2
          unfold qfd_getMapExpr
          rw [if_neg hnc, if_neg hnopen, heq]
          simp only []
          rw [hr]
        next heq =>
          split at h
          next hcls =>
            split at h
            next c hc =>
              simp only [Prod.mk.injEq, Except.ok.injEq, Option.some.injEq] at h
              obtain ⟨hr, hs2⟩ := h
              subst hs2
              unfold qfd_getMapExpr
              rw [if_neg hnc, if_neg hnopen]
              rw [List.find?_cons_of_pos _ (by simp)]
              simp only []
              rw [hr]
            next hc =>
              simp only [Prod.mk.injEq, Except.ok.injEq, Option.some.injEq] at h
              obtain ⟨hr, hs2⟩ := h
              subst hs2
              unfold qfd_getMapExpr
              rw [if_neg hnc, if_neg hnopen]
              rw [List.find?_cons_of_pos _ (by simp)]
              simp only []
              rw [hr]
          next hcls =>
            simp at h
  · intro d s h0 rest hopen hm hc hcls hnot hsec hfp
    have hnc : ¬s.phase = .cleanedUp := by rw [hopen]; simp
    have hnno : ¬s.phase ≠ .sessionOpen := by rw [hopen]; simp
    have hcall : qfd_getMapExpr d s h0 =
        (.ok (some (buildTree (d.formula h0), false)),
          { s with mapExprMemo := [(h0, buildTree (d.formula h0), false)],
                   canonTrees := [buildTree (d.formula h0)] }) := by
      unfold qfd_getMapExpr
      rw [if_neg hnc, if_neg hnno, hm]
      simp only [List.find?_nil]
      rw [if_pos hcls, hc]
      simp only [List.find?_nil]
    unfold qfd_getMapExprList
    rw [hcall]
    simp only [List.map_cons]
    have hrest := getMapExprList_alias_aux d (buildTree (d.formula h0)) rest
      { s with mapExprMemo := [(h0, buildTree (d.formula h0), false)],
               canonTrees := [buildTree (d.formula h0)] }
      hopen rfl
      (by
        intro e he hin
        simp only [List.mem_singleton] at he
        subst he
        exact absurd hin hnot)
      hsec hfp
    rw [hrest]

theorem getMapExpr_memoized_and_aliased_witness :
    openState.phase = .sessionOpen ∧ openState.mapExprMemo = [] ∧
    openState.canonTrees = [] ∧ secDesign.classify 1 = .QFD_VAL_SECONDARY ∧
    (1 : Nat) ∉ [2, 3] ∧
    (qfd_getMapExprList secDesign openState [1, 2, 3]).1 =
      [(.partSelect 2 5 7, false), (.partSelect 2 5 7, true), (.partSelect 2 5 7, true)] ∧
    qfd_getMapExpr secDesign
        ⟨.sessionOpen, [], [(1, .partSelect 2 5 7, false)], [.partSelect 2 5 7]⟩ 1 =
      (.ok (some (.partSelect 2 5 7, false)),
        ⟨.sessionOpen, [], [(1, .partSelect 2 5 7, false)], [.partSelect 2 5 7]⟩) :=
  ⟨rfl, rfl, rfl, rfl, by decide,
    by
      rw [getMapExpr_memoized_and_aliased.2 secDesign openState 1 [2, 3] rfl rfl rfl rfl
        (by decide) (fun h hh => rfl) (fun h hh => rfl)]
      decide,
    getMapExpr_memoized_and_aliased.1 secDesign openState 1 (.partSelect 2 5 7, false)
      ⟨.sessionOpen, [], [(1, .partSelect 2 5 7, false)], [.partSelect 2 5 7]⟩ rfl⟩
